import Mathlib

/-!
Verification of the metrics engine of the data-quality dashboard
(src/data-quality-dashboard.py, class DataQualityDashboard).

The dashboard holds a pandas DataFrame `self.df` and a metrics accumulator
`self.metrics`, and computes three metric families (completeness, timeliness,
consistency) plus an aggregated report.  The embedding below models:

 - a cell value as `Value` (null / string / number / parsed timestamp);
 - the DataFrame as an explicit column list plus a list of records
   (a record is an association list from column name to value; a key that is
   absent from a record is a null cell, as pandas fills NaN when building a
   frame from records);
 - Python/numpy exceptions as an `Except PyExn` result;
 - numpy float results that can be NaN (`PyFloat`), since dividing a numpy
   integer by zero yields NaN with a RuntimeWarning rather than raising,
   while dividing a plain Python int by zero raises ZeroDivisionError;
 - timestamps and the evaluation instant `now` as rationals counting seconds,
   with pandas' `Timedelta.days` as the floor of seconds / 86400 (pandas
   normalizes so that the day component rounds toward negative infinity);
 - `pd.to_datetime` restricted to ISO `YYYY-MM-DD` date strings (the only
   shape exercised here); any other string raises, as `to_datetime` does by
   default (`errors` defaults to `'raise'`), and a null becomes NaT;
 - `Series.value_counts()` as the list of distinct non-null values in
   first-encountered order together with their multiplicities, sorted by
   descending count; pandas drops nulls (`dropna=True` by default) and keeps
   first-encountered order among equal counts.

File I/O (report writing), logging and the HTTP fetch are out of scope, as is
the report timestamp: the report is modelled as the dataset size plus the
metrics mapping.
-/

/-- A cell value: null (None/NaN/NaT), a string, a number, or a timestamp
produced by pd.to_datetime (seconds since epoch, rational). -/
inductive Value where
  | null
  | str (s : String)
  | num (q : ℚ)
  | timestamp (t : ℚ)
deriving DecidableEq, Repr

/-- True for every value except null. -/
def Value.isNull : Value → Bool
  | .null => true
  | _ => false

/-- True for string-valued cells; used to model pandas object dtype. -/
def Value.isStr : Value → Bool
  | .str _ => true
  | _ => false

/-- A record: association list from column name to cell value. -/
abbrev Record := List (String × Value)

/-- The DataFrame: its column index and its rows. -/
structure DataFrame where
  cols : List String
  rows : List Record
deriving DecidableEq, Repr

/-- The cell of a record at a column; a missing key is a null cell, as pandas
fills NaN for keys absent from a record. -/
def cellOf (r : Record) (col : String) : Value :=
  (r.lookup col).getD Value.null

/-- The column of a DataFrame as a list of values (`self.df[col]`), meaningful
when `col` is in the column index. -/
def series (df : DataFrame) (col : String) : List Value :=
  df.rows.map (fun r => cellOf r col)

/-- Python/numpy exceptions surfaced by the dashboard's metric code. -/
inductive PyExn where
  | keyError (col : String)
  | dateParseError (s : String)
  | zeroDivisionError
deriving DecidableEq, Repr

/-- A numpy float result: a rational or NaN (numpy division of an integer
count by zero emits a warning and yields NaN instead of raising). -/
inductive PyFloat where
  | nan
  | val (q : ℚ)
deriving DecidableEq, Repr

/-- A whole-day metric value: an integer day count, or NaN when the aggregate
is NaT (pandas NaT attribute access yields NaN). -/
inductive DayVal where
  | nanDays
  | days (d : ℤ)
deriving DecidableEq, Repr

/-- The timeliness metrics record built at line 86 of the source. -/
structure TimelinessMetrics where
  average_age_days : DayVal
  oldest_record_days : DayVal
  newest_record_days : DayVal
deriving DecidableEq, Repr

/-- The per-column consistency record built at line 108 of the source. -/
structure ConsistencyMetric where
  unique_values : ℕ
  unique_ratio : ℚ
  most_common : List (Value × ℕ)
deriving DecidableEq, Repr

/-- The `self.metrics` accumulator: a dict that only ever receives the keys
`completeness`, `timeliness` and `consistency`; a missing key is `none`. -/
structure Metrics where
  completeness : Option (List (String × PyFloat))
  timeliness : Option TimelinessMetrics
  consistency : Option (List (String × ConsistencyMetric))
deriving DecidableEq, Repr

/-- Python truthiness of the metrics dict: `not self.metrics` holds exactly
when no key has been assigned. -/
def metricsIsEmpty (m : Metrics) : Bool :=
  m.completeness.isNone && m.timeliness.isNone && m.consistency.isNone

/-- The dashboard state the metric methods read and write: the DataFrame and
the metrics accumulator. -/
structure EngineState where
  df : DataFrame
  metrics : Metrics
deriving DecidableEq, Repr

/-- The quality report of generate_report: dataset size and metrics mapping
(the report_generated timestamp and the file write are out of scope). -/
structure QualityReport where
  dataset_size : ℕ
  metrics : Metrics
deriving DecidableEq, Repr

/-- Error-propagating map over a list, evaluating left to right and stopping
at the first exception, as a Python loop or vectorized pandas call does. -/
def exceptMapM (f : α → Except PyExn β) : List α → Except PyExn (List β)
  | [] => .ok []
  | a :: as =>
    match f a with
    | .error e => .error e
    | .ok b =>
      match exceptMapM f as with
      | .error e => .error e
      | .ok bs => .ok (b :: bs)

/-- Splits a character list on the dash character, as used to read an ISO
date string. -/
def splitDash : List Char → List (List Char)
  | [] => [[]]
  | c :: cs =>
    let r := splitDash cs
    if c = '-' then [] :: r
    else
      match r with
      | [] => [[c]]
      | g :: gs => (c :: g) :: gs

/-- Reads a digit list as a natural number. -/
def digitsToNat (l : List Char) : ℕ :=
  l.foldl (fun n c => n * 10 + (c.toNat - 48)) 0

/-- Days from the Unix epoch for a civil date (Howard Hinnant's algorithm,
the standard conversion used by datetime libraries). -/
def daysFromCivil (y m d : ℤ) : ℤ :=
  let y' : ℤ := if m ≤ 2 then y - 1 else y
  let era : ℤ := (if 0 ≤ y' then y' else y' - 399) / 400
  let yoe : ℤ := y' - era * 400
  let mp : ℤ := if 2 < m then m - 3 else m + 9
  let doy : ℤ := (153 * mp + 2) / 5 + d - 1
  let doe : ℤ := yoe * 365 + yoe / 4 - yoe / 100 + doy
  era * 146097 + doe - 719468

/-- Parses an ISO `YYYY-MM-DD` date string to epoch seconds; models the
date-string grammar accepted in this dataset by pd.to_datetime.  Any other
string is unparsable. -/
def parseDate (s : String) : Option ℤ :=
  match splitDash s.toList with
  | [ys, ms, ds] =>
    if ys.length = 4 ∧ ms.length = 2 ∧ ds.length = 2
        ∧ ys.all Char.isDigit ∧ ms.all Char.isDigit ∧ ds.all Char.isDigit then
      let y := digitsToNat ys
      let m := digitsToNat ms
      let d := digitsToNat ds
      if 1 ≤ m ∧ m ≤ 12 ∧ 1 ≤ d ∧ d ≤ 31 then
        some (daysFromCivil y m d * 86400)
      else none
    else none
  | _ => none

/-- pd.to_datetime on one cell: null becomes NaT (`none`), a timestamp stays
itself, a parsable date string becomes its timestamp, any other string raises
(`errors` defaults to `'raise'`), and a number is read as epoch nanoseconds. -/
def toDatetime : Value → Except PyExn (Option ℚ)
  | .null => .ok none
  | .timestamp t => .ok (some t)
  | .num q => .ok (some (q / 1000000000))
  | .str s =>
    match parseDate s with
    | some t => .ok (some ((t : ℚ)))
    | none => .error (.dateParseError s)

/-- The cell written back by the column assignment at line 81: a parsed
timestamp, or a null for NaT. -/
def parsedValue : Option ℚ → Value
  | some t => .timestamp t
  | none => .null

/-- Writes a value for a column into one record (replacing the binding or
appending it when the record lacked the key). -/
def setCell (r : Record) (col : String) (v : Value) : Record :=
  if r.any (fun p => p.1 = col) then
    r.map (fun p => if p.1 = col then (col, v) else p)
  else r ++ [(col, v)]

/-- Column assignment `self.df[col] = vals`: every row receives its new value
(the column index gains the name when it was absent). -/
def setColumn (df : DataFrame) (col : String) (vals : List Value) : DataFrame :=
  { cols := if col ∈ df.cols then df.cols else df.cols ++ [col]
    rows := df.rows.zipWith (fun r v => setCell r col v) vals }

/-- select_dtypes(include=['object']): the columns holding Python objects,
modelled as the columns with at least one string cell (a column parsed to
datetime64 by calculate_timeliness stops being an object column). -/
def objectCols (df : DataFrame) : List String :=
  df.cols.filter (fun c => (series df c).any Value.isStr)

/-- The distinct values of a list in first-encountered order (the key order of
a pandas hashtable-based value_counts before sorting). -/
def dedupFirst : List Value → List Value
  | [] => []
  | v :: vs => v :: dedupFirst (vs.filter (fun w => w ≠ v))
termination_by l => l.length
decreasing_by
  simp only [List.length_cons]
  exact Nat.lt_succ_of_le (List.length_filter_le _ _)

/-- The position of the first occurrence of a value in a list. -/
def firstIdx : List Value → Value → ℕ
  | [], _ => 0
  | w :: ws, v => if v = w then 0 else firstIdx ws v + 1

/-- The non-null values of a column, in order. -/
def nonNullValues (vals : List Value) : List Value :=
  vals.filter (fun v => !v.isNull)

/-- The (value, count) pairs of the distinct non-null values of a column, in
first-encountered order, before sorting. -/
def countsFirstSeen (vals : List Value) : List (Value × ℕ) :=
  (dedupFirst (nonNullValues vals)).map
    (fun k => (k, (nonNullValues vals).count k))

/-- Inserts a pair into a count-descending list, after every strictly larger
count and before every equal or smaller one (so a stable descending sort
keeps first-encountered order among equal counts). -/
def insertDesc (p : Value × ℕ) : List (Value × ℕ) → List (Value × ℕ)
  | [] => [p]
  | q :: qs => if p.2 < q.2 then q :: insertDesc p qs else p :: q :: qs

/-- Stable insertion sort by descending count. -/
def sortCountsDesc : List (Value × ℕ) → List (Value × ℕ)
  | [] => []
  | p :: ps => insertDesc p (sortCountsDesc ps)

/-- Series.value_counts(): counts of the distinct non-null values, sorted by
descending count, first-encountered order among equal counts. -/
def value_counts (vals : List Value) : List (Value × ℕ) :=
  sortCountsDesc (countsFirstSeen vals)

/-- Mean of a list of rationals, `none` when the list is empty (the mean of an
all-NaT timedelta series is NaT). -/
def listMean (l : List ℚ) : Option ℚ :=
  if l = [] then none else some (l.sum / l.length)

/-- Maximum of a list of rationals, `none` when empty. -/
def listMax : List ℚ → Option ℚ
  | [] => none
  | a :: as => some (as.foldl max a)

/-- Minimum of a list of rationals, `none` when empty. -/
def listMin : List ℚ → Option ℚ
  | [] => none
  | a :: as => some (as.foldl min a)

/-- Timedelta.days of an aggregate: the floor of the value in days (pandas
normalizes a timedelta so the day component rounds toward negative infinity);
NaT yields NaN. -/
def daysOf : Option ℚ → DayVal
  | none => .nanDays
  | some t => .days ⌊t / 86400⌋

/-- calculate_completeness for one column (lines 68-70): the non-null count
over the total count, times 100.  The counts are numpy integers, so a zero
total yields numpy 0/0, which is NaN (with a RuntimeWarning), not an
exception; a column absent from the frame raises KeyError. -/
def completenessOfCol (df : DataFrame) (col : String) : Except PyExn PyFloat :=
  if col ∈ df.cols then
    let nonNullCount := (nonNullValues (series df col)).length
    let totalCount := df.rows.length
    if totalCount = 0 then .ok .nan
    else .ok (.val ((nonNullCount : ℚ) / (totalCount : ℚ) * 100))
  else .error (.keyError col)

/-- calculate_completeness (lines 61-73): an empty or missing column argument
defaults to all columns; the scores are computed per column and stored into
`self.metrics['completeness']`. -/
def calculate_completeness (st : EngineState) (columns : List String) :
    Except PyExn (List (String × PyFloat) × EngineState) :=
  let cols := if columns.isEmpty then st.df.cols else columns
  match exceptMapM (fun c => (completenessOfCol st.df c).map (fun p => (c, p))) cols with
  | .error e => .error e
  | .ok scores =>
    .ok (scores, { st with metrics := { st.metrics with completeness := some scores } })

/-- calculate_timeliness (lines 75-93): a missing date column returns None
without touching the metrics; otherwise the column is parsed with
pd.to_datetime and written back in place (line 81, mutating the DataFrame),
the age of each parsed timestamp relative to now is taken, and the mean, max
and min ages are reported in whole days (NaT entries are skipped by the
aggregates; an all-NaT column gives NaT aggregates, hence NaN day values). -/
def calculate_timeliness (now : ℚ) (st : EngineState) (dateColumn : String) :
    Except PyExn (Option TimelinessMetrics × EngineState) :=
  if dateColumn ∈ st.df.cols then
    match exceptMapM toDatetime (series st.df dateColumn) with
    | .error e => .error e
    | .ok parsed =>
      let df' := setColumn st.df dateColumn (parsed.map parsedValue)
      let ages := (parsed.filterMap id).map (fun t => now - t)
      let tm : TimelinessMetrics :=
        { average_age_days := daysOf (listMean ages)
          oldest_record_days := daysOf (listMax ages)
          newest_record_days := daysOf (listMin ages) }
      .ok (some tm, { df := df', metrics := { st.metrics with timeliness := some tm } })
  else .ok (none, st)

/-- calculate_consistency for one column (lines 105-112): value_counts of the
column (KeyError when the column is absent), then the unique ratio over the
total record count — a plain Python division, so an empty frame raises
ZeroDivisionError — and the top three most common values. -/
def consistencyOfCol (df : DataFrame) (col : String) : Except PyExn ConsistencyMetric :=
  if col ∈ df.cols then
    let vc := value_counts (series df col)
    if df.rows.length = 0 then .error .zeroDivisionError
    else
      .ok { unique_values := vc.length
            unique_ratio := (vc.length : ℚ) / (df.rows.length : ℚ) * 100
            most_common := vc.take 3 }
  else .error (.keyError col)

/-- calculate_consistency (lines 95-115): an empty or missing column argument
defaults to the object-dtype columns; the per-column metrics are stored into
`self.metrics['consistency']`. -/
def calculate_consistency (st : EngineState) (categoricalColumns : List String) :
    Except PyExn (List (String × ConsistencyMetric) × EngineState) :=
  let cols := if categoricalColumns.isEmpty then objectCols st.df else categoricalColumns
  match exceptMapM (fun c => (consistencyOfCol st.df c).map (fun m => (c, m))) cols with
  | .error e => .error e
  | .ok ms =>
    .ok (ms, { st with metrics := { st.metrics with consistency := some ms } })

/-- generate_report (lines 117-135): when the metrics dict is empty it runs
the three metric computations with default arguments, then packages the
current record count with whatever `self.metrics` holds; when the dict is
non-empty the three computations are skipped and the cached metrics are
packaged as they are (the JSON file write is out of scope). -/
def generate_report (now : ℚ) (st : EngineState) :
    Except PyExn (QualityReport × EngineState) :=
  if metricsIsEmpty st.metrics then
    match calculate_completeness st [] with
    | .error e => .error e
    | .ok (_, st1) =>
      match calculate_timeliness now st1 "created_date" with
      | .error e => .error e
      | .ok (_, st2) =>
        match calculate_consistency st2 [] with
        | .error e => .error e
        | .ok (_, st3) =>
          .ok ({ dataset_size := st3.df.rows.length, metrics := st3.metrics }, st3)
  else .ok ({ dataset_size := st.df.rows.length, metrics := st.metrics }, st)

/-- The record ages (now minus timestamp) of the parsed non-NaT entries of a
date column; abbreviates the ages list inside calculate_timeliness. -/
def agesOf (now : ℚ) (parsed : List (Option ℚ)) : List ℚ :=
  (parsed.filterMap id).map (fun t => now - t)

/-- The timeliness record computed from the parsed date column; abbreviates
the record built inside calculate_timeliness. -/
def timelinessOf (now : ℚ) (parsed : List (Option ℚ)) : TimelinessMetrics :=
  ⟨daysOf (listMean (agesOf now parsed)),
   daysOf (listMax (agesOf now parsed)),
   daysOf (listMin (agesOf now parsed))⟩

/-- The per-column consistency record; abbreviates the record built inside
consistencyOfCol. -/
def consistencyMetricOf (df : DataFrame) (col : String) : ConsistencyMetric :=
  ⟨(value_counts (series df col)).length,
   ((value_counts (series df col)).length : ℚ) / (df.rows.length : ℚ) * 100,
   (value_counts (series df col)).take 3⟩

/-- The per-column completeness score; abbreviates the score computed inside
completenessOfCol on a non-empty frame. -/
def completenessScoreOf (df : DataFrame) (col : String) : ℚ :=
  ((nonNullValues (series df col)).length : ℚ) / (df.rows.length : ℚ) * 100

/-- One-record dataset with a single status column; used to exercise the
report cache. -/
def dfStatusOne : DataFrame := ⟨["status"], [[("status", .str "Open")]]⟩

/-- The same dataset after a second record (with a missing status value) was
appended. -/
def dfStatusTwo : DataFrame := ⟨["status"], [[("status", .str "Open")], []]⟩

/-- The metrics accumulated by the first generate_report call on
dfStatusOne. -/
def metricsAfterFirstReport : Metrics :=
  ⟨some [("status", .val 100)], none,
   some [("status", ⟨1, 100, [(.str "Open", 1)]⟩)]⟩

/-! ## Basic lemmas about the embedding's list combinators -/

theorem exceptMapM_nil (f : α → Except PyExn β) : exceptMapM f [] = .ok [] := rfl

theorem exceptMapM_cons (f : α → Except PyExn β) (a : α) (as : List α) :
    exceptMapM f (a :: as) =
      match f a with
      | .error e => .error e
      | .ok b =>
        match exceptMapM f as with
        | .error e => .error e
        | .ok bs => .ok (b :: bs) := rfl

theorem exceptMapM_ok_mem (f : α → Except PyExn β) :
    ∀ (l : List α) (ys : List β), exceptMapM f l = .ok ys →
      ∀ y ∈ ys, ∃ x ∈ l, f x = .ok y := by
  intro l
  induction l with
  | nil => intro ys h y hy; simp [exceptMapM] at h; subst h; simp at hy
  | cons a as ih =>
    intro ys h y hy
    rw [exceptMapM_cons] at h
    cases hfa : f a with
    | error e => rw [hfa] at h; exact absurd h (by simp)
    | ok b =>
      rw [hfa] at h
      cases hrest : exceptMapM f as with
      | error e => rw [hrest] at h; exact absurd h (by simp)
      | ok bs =>
        rw [hrest] at h
        simp only [Except.ok.injEq] at h
        subst h
        rcases List.mem_cons.mp hy with rfl | hy'
        · exact ⟨a, List.mem_cons_self a as, hfa⟩
        · obtain ⟨x, hx, hfx⟩ := ih bs hrest y hy'
          exact ⟨x, List.mem_cons_of_mem a hx, hfx⟩

theorem exceptMapM_ok_of_forall (f : α → Except PyExn β) (g : α → β) :
    ∀ (l : List α), (∀ x ∈ l, f x = .ok (g x)) →
      exceptMapM f l = .ok (l.map g) := by
  intro l
  induction l with
  | nil => intro _; rfl
  | cons a as ih =>
    intro h
    rw [exceptMapM_cons, h a (List.mem_cons_self a as),
      ih (fun x hx => h x (List.mem_cons_of_mem a hx))]
    simp

/-! ## Lemmas about the stable descending sort behind value_counts -/

theorem mem_insertDesc {p x : Value × ℕ} :
    ∀ {l : List (Value × ℕ)}, x ∈ insertDesc p l → x = p ∨ x ∈ l := by
  intro l
  induction l with
  | nil => intro h; simp [insertDesc] at h; exact Or.inl h
  | cons q qs ih =>
    intro h
    rw [insertDesc] at h
    by_cases hc : p.2 < q.2
    · rw [if_pos hc] at h
      rcases List.mem_cons.mp h with rfl | h'
      · exact Or.inr (List.mem_cons_self _ _)
      · rcases ih h' with h'' | h''
        · exact Or.inl h''
        · exact Or.inr (List.mem_cons_of_mem _ h'')
    · rw [if_neg hc] at h
      rcases List.mem_cons.mp h with rfl | h'
      · exact Or.inl rfl
      · exact Or.inr h'

theorem mem_sortCountsDesc {x : Value × ℕ} :
    ∀ {l : List (Value × ℕ)}, x ∈ sortCountsDesc l → x ∈ l := by
  intro l
  induction l with
  | nil => intro h; simp [sortCountsDesc] at h
  | cons p ps ih =>
    intro h
    rw [sortCountsDesc] at h
    rcases mem_insertDesc h with rfl | h'
    · exact List.mem_cons_self _ _
    · exact List.mem_cons_of_mem _ (ih h')

theorem length_insertDesc (p : Value × ℕ) :
    ∀ (l : List (Value × ℕ)), (insertDesc p l).length = l.length + 1 := by
  intro l
  induction l with
  | nil => rfl
  | cons q qs ih =>
    rw [insertDesc]
    by_cases hc : p.2 < q.2
    · rw [if_pos hc]; simp [ih]
    · rw [if_neg hc]; simp

theorem length_sortCountsDesc :
    ∀ (l : List (Value × ℕ)), (sortCountsDesc l).length = l.length := by
  intro l
  induction l with
  | nil => rfl
  | cons p ps ih => rw [sortCountsDesc, length_insertDesc, ih]; rfl

/-- Inserting an element that came after the whole list (for ties, the rank
relation R does not hold towards it) into a descending-sorted stable list
keeps the list descending-sorted and stable: the combined relation asserts
descending counts, and R across ties. -/
theorem insertDesc_pairwise {R : Value × ℕ → Value × ℕ → Prop} {p : Value × ℕ} :
    ∀ {l : List (Value × ℕ)},
      (∀ q ∈ l, p.2 = q.2 → R p q) →
      l.Pairwise (fun a b => b.2 ≤ a.2 ∧ (a.2 = b.2 → R a b)) →
      (insertDesc p l).Pairwise (fun a b => b.2 ≤ a.2 ∧ (a.2 = b.2 → R a b)) := by
  intro l
  induction l with
  | nil => intro _ _; simp [insertDesc]
  | cons q qs ih =>
    intro hrank hpw
    rw [insertDesc]
    rcases List.pairwise_cons.mp hpw with ⟨hq, hqs⟩
    by_cases hc : p.2 < q.2
    · rw [if_pos hc]
      refine List.pairwise_cons.mpr ⟨?_, ?_⟩
      · intro x hx
        rcases mem_insertDesc hx with rfl | hx'
        · exact ⟨Nat.le_of_lt hc, fun he => absurd he.symm (Nat.ne_of_lt hc)⟩
        · exact hq x hx'
      · exact ih (fun r hr => hrank r (List.mem_cons_of_mem q hr)) hqs
    · rw [if_neg hc]
      have hqp : q.2 ≤ p.2 := Nat.le_of_not_lt hc
      refine List.pairwise_cons.mpr ⟨?_, hpw⟩
      intro x hx
      rcases List.mem_cons.mp hx with rfl | hx'
      · exact ⟨hqp, hrank x (List.mem_cons_self _ _)⟩
      · have hxq := hq x hx'
        exact ⟨Nat.le_trans hxq.1 hqp, hrank x (List.mem_cons_of_mem q hx')⟩

/-- The stable descending insertion sort: if the rank relation R orders the
input pairwise, the output is descending by count and respects R across
ties. -/
theorem sortCountsDesc_pairwise {R : Value × ℕ → Value × ℕ → Prop} :
    ∀ {l : List (Value × ℕ)}, l.Pairwise (fun a b => R a b) →
      (sortCountsDesc l).Pairwise (fun a b => b.2 ≤ a.2 ∧ (a.2 = b.2 → R a b)) := by
  intro l
  induction l with
  | nil => intro _; simp [sortCountsDesc]
  | cons p ps ih =>
    intro hpw
    rcases List.pairwise_cons.mp hpw with ⟨hp, hps⟩
    rw [sortCountsDesc]
    exact insertDesc_pairwise
      (fun q hq _ => hp q (mem_sortCountsDesc hq)) (ih hps)

/-! ## Lemmas about first-encountered order and deduplication -/

theorem dedupFirst_nil : dedupFirst [] = [] := by rw [dedupFirst]

theorem dedupFirst_cons (v : Value) (vs : List Value) :
    dedupFirst (v :: vs) = v :: dedupFirst (vs.filter (fun w => w ≠ v)) := by
  rw [dedupFirst]

theorem mem_dedupFirst : ∀ {l : List Value} {x : Value}, x ∈ dedupFirst l ↔ x ∈ l := by
  intro l
  induction l using dedupFirst.induct with
  | case1 => simp [dedupFirst_nil]
  | case2 v vs ih =>
    intro x
    rw [dedupFirst_cons]
    constructor
    · intro h
      rcases List.mem_cons.mp h with rfl | h'
      · exact List.mem_cons_self _ _
      · exact List.mem_cons_of_mem _ (List.mem_of_mem_filter (ih.mp h'))
    · intro h
      rcases List.mem_cons.mp h with rfl | h'
      · exact List.mem_cons_self _ _
      · by_cases hxv : x = v
        · subst hxv; exact List.mem_cons_self _ _
        · refine List.mem_cons_of_mem _ (ih.mpr ?_)
          exact List.mem_filter.mpr ⟨h', by simp [hxv]⟩

theorem dedupFirst_nodup : ∀ (l : List Value), (dedupFirst l).Nodup := by
  intro l
  induction l using dedupFirst.induct with
  | case1 => simp [dedupFirst_nil]
  | case2 v vs ih =>
    rw [dedupFirst_cons]
    refine List.nodup_cons.mpr ⟨?_, ih⟩
    intro hmem
    have := List.mem_filter.mp (mem_dedupFirst.mp hmem)
    simp at this

theorem dedupFirst_length_le : ∀ (l : List Value), (dedupFirst l).length ≤ l.length := by
  intro l
  induction l using dedupFirst.induct with
  | case1 => simp [dedupFirst_nil]
  | case2 v vs ih =>
    rw [dedupFirst_cons]
    simp only [List.length_cons]
    exact Nat.succ_le_succ (Nat.le_trans ih (List.length_filter_le _ _))

theorem dedupFirst_toFinset (l : List Value) :
    (dedupFirst l).toFinset = l.toFinset := by
  ext x
  simp [List.mem_toFinset, mem_dedupFirst]

theorem dedupFirst_length_eq_card (l : List Value) :
    (dedupFirst l).length = l.toFinset.card := by
  rw [← dedupFirst_toFinset, List.toFinset_card_of_nodup (dedupFirst_nodup l)]

theorem firstIdx_cons (w : Value) (ws : List Value) (v : Value) :
    firstIdx (w :: ws) v = if v = w then 0 else firstIdx ws v + 1 := rfl

/-- Filtering preserves the relative order of first occurrences. -/
theorem firstIdx_filter_lt (p : Value → Bool) :
    ∀ (l : List Value) {a b : Value}, a ∈ l.filter p → b ∈ l.filter p →
      firstIdx (l.filter p) a < firstIdx (l.filter p) b →
      firstIdx l a < firstIdx l b := by
  intro l
  induction l with
  | nil => intro a b ha; simp at ha
  | cons c cs ih =>
    intro a b ha hb hlt
    by_cases hpc : p c
    · rw [List.filter_cons_of_pos hpc] at ha hb hlt
      by_cases hac : a = c
      · subst hac
        rw [firstIdx_cons, if_pos rfl] at hlt ⊢
        by_cases hbc : b = a
        · subst hbc; rw [firstIdx_cons, if_pos rfl] at hlt; exact absurd hlt (by simp)
        · rw [firstIdx_cons, if_neg hbc]; exact Nat.succ_pos _
      · rw [firstIdx_cons (v := a), if_neg hac] at hlt ⊢
        by_cases hbc : b = c
        · subst hbc
          rw [firstIdx_cons, if_pos rfl] at hlt
          exact absurd hlt (by simp)
        · rw [firstIdx_cons (v := b), if_neg hbc] at hlt ⊢
          have ha' : a ∈ cs.filter p := by
            rcases List.mem_cons.mp ha with h | h
            · exact absurd h hac
            · exact h
          have hb' : b ∈ cs.filter p := by
            rcases List.mem_cons.mp hb with h | h
            · exact absurd h hbc
            · exact h
          exact Nat.succ_lt_succ (ih ha' hb' (Nat.lt_of_succ_lt_succ hlt))
    · rw [List.filter_cons_of_neg hpc] at ha hb hlt
      have hac : a ≠ c := by
        intro hh; subst hh
        exact hpc (List.of_mem_filter ha)
      have hbc : b ≠ c := by
        intro hh; subst hh
        exact hpc (List.of_mem_filter hb)
      rw [firstIdx_cons (v := a), if_neg hac, firstIdx_cons (v := b), if_neg hbc]
      exact Nat.succ_lt_succ (ih ha hb hlt)

/-- The deduplicated list is ordered by position of first occurrence. -/
theorem dedupFirst_pairwise_firstIdx :
    ∀ (l : List Value), (dedupFirst l).Pairwise (fun a b => firstIdx l a < firstIdx l b) := by
  intro l
  induction l using dedupFirst.induct with
  | case1 => simp [dedupFirst_nil]
  | case2 v vs ih =>
    rw [dedupFirst_cons]
    refine List.pairwise_cons.mpr ⟨?_, ?_⟩
    · intro b hb
      have hbv : b ≠ v := by
        have := List.mem_filter.mp (mem_dedupFirst.mp hb)
        simpa using this.2
      rw [firstIdx_cons, if_pos rfl, firstIdx_cons, if_neg hbv]
      exact Nat.succ_pos _
    · refine List.Pairwise.imp_of_mem ?_ ih
      intro a b ha hb hlt
      have ha' := mem_dedupFirst.mp ha
      have hb' := mem_dedupFirst.mp hb
      have hav : a ≠ v := by simpa using (List.mem_filter.mp ha').2
      have hbv : b ≠ v := by simpa using (List.mem_filter.mp hb').2
      rw [firstIdx_cons, if_neg hav, firstIdx_cons, if_neg hbv]
      exact Nat.succ_lt_succ
        (firstIdx_filter_lt _ vs ha' hb' hlt)

/-! ## Lemmas about the aggregate helpers -/

theorem foldl_max_spec :
    ∀ (as : List ℚ) (a : ℚ), a ≤ as.foldl max a ∧ ∀ x ∈ as, x ≤ as.foldl max a := by
  intro as
  induction as with
  | nil => intro a; exact ⟨le_refl a, by simp⟩
  | cons b bs ih =>
    intro a
    rcases ih (max a b) with ⟨h1, h2⟩
    refine ⟨le_trans (le_max_left a b) h1, ?_⟩
    intro x hx
    rcases List.mem_cons.mp hx with rfl | hx'
    · exact le_trans (le_max_right a x) h1
    · exact h2 x hx'

theorem foldl_min_spec :
    ∀ (as : List ℚ) (a : ℚ), as.foldl min a ≤ a ∧ ∀ x ∈ as, as.foldl min a ≤ x := by
  intro as
  induction as with
  | nil => intro a; exact ⟨le_refl a, by simp⟩
  | cons b bs ih =>
    intro a
    rcases ih (min a b) with ⟨h1, h2⟩
    refine ⟨le_trans h1 (min_le_left a b), ?_⟩
    intro x hx
    rcases List.mem_cons.mp hx with rfl | hx'
    · exact le_trans h1 (min_le_right a x)
    · exact h2 x hx'

theorem listMax_spec (a : ℚ) (as : List ℚ) :
    ∃ M, listMax (a :: as) = some M ∧ ∀ x ∈ a :: as, x ≤ M := by
  refine ⟨as.foldl max a, rfl, ?_⟩
  intro x hx
  rcases List.mem_cons.mp hx with rfl | hx'
  · exact (foldl_max_spec as x).1
  · exact (foldl_max_spec as a).2 x hx'

theorem listMin_spec (a : ℚ) (as : List ℚ) :
    ∃ m, listMin (a :: as) = some m ∧ ∀ x ∈ a :: as, m ≤ x := by
  refine ⟨as.foldl min a, rfl, ?_⟩
  intro x hx
  rcases List.mem_cons.mp hx with rfl | hx'
  · exact (foldl_min_spec as x).1
  · exact (foldl_min_spec as a).2 x hx'

/-- Unfolding equation for calculate_timeliness when the date column exists
and every cell parses. -/
theorem calculate_timeliness_eq (now : ℚ) (st : EngineState) (dc : String)
    (parsed : List (Option ℚ))
    (hcol : dc ∈ st.df.cols)
    (hparse : exceptMapM toDatetime (series st.df dc) = .ok parsed) :
    calculate_timeliness now st dc =
      .ok (some (timelinessOf now parsed),
        ⟨setColumn st.df dc (parsed.map parsedValue),
         ⟨st.metrics.completeness, some (timelinessOf now parsed),
          st.metrics.consistency⟩⟩) := by
  rw [calculate_timeliness, if_pos hcol, hparse]
  rfl

/-- Unfolding equation for the single-column calls of calculate_consistency
on a non-empty frame. -/
theorem calculate_consistency_single (st : EngineState) (col : String)
    (hcol : col ∈ st.df.cols) (hne : st.df.rows ≠ []) :
    calculate_consistency st [col] =
      .ok ([(col, consistencyMetricOf st.df col)],
        ⟨st.df, ⟨st.metrics.completeness, st.metrics.timeliness,
          some [(col, consistencyMetricOf st.df col)]⟩⟩) := by
  have hlen : st.df.rows.length ≠ 0 := by
    intro h; exact hne (List.length_eq_zero.mp h)
  rw [calculate_consistency]
  rw [if_neg (by simp)]
  rw [exceptMapM_cons, consistencyOfCol, if_pos hcol, if_neg hlen]
  rfl

/-- Unfolding equation for the single-column calls of calculate_completeness
on a non-empty frame. -/
theorem calculate_completeness_single (st : EngineState) (col : String)
    (hcol : col ∈ st.df.cols) (hne : st.df.rows ≠ []) :
    calculate_completeness st [col] =
      .ok ([(col, .val (completenessScoreOf st.df col))],
        ⟨st.df, ⟨some [(col, .val (completenessScoreOf st.df col))],
          st.metrics.timeliness, st.metrics.consistency⟩⟩) := by
  have hlen : st.df.rows.length ≠ 0 := by
    intro h; exact hne (List.length_eq_zero.mp h)
  rw [calculate_completeness]
  rw [if_neg (by simp)]
  rw [exceptMapM_cons, completenessOfCol, if_pos hcol, if_neg hlen]
  rfl

/-! ## Claim theorems -/

/-- C1: completeness on an empty dataset does not return 0 and does not fail
with an EmptyDatasetError: numpy divides the zero non-null count by the zero
total count and the requested column's score is NaN, so the code violates the
required behaviour (the claim is right about the intent, the code does
neither of the two permitted things). -/
theorem completeness_empty_dataset_yields_nan :
    calculate_completeness ⟨⟨["a"], []⟩, ⟨none, none, none⟩⟩ ["a"] =
      .ok ([("a", PyFloat.nan)],
        ⟨⟨["a"], []⟩, ⟨some [("a", PyFloat.nan)], none, none⟩⟩) ∧
    PyFloat.nan ≠ PyFloat.val 0 := by
  constructor
  · rfl
  · intro h; cases h

/-- C9 counterexample: on the empty dataset the completeness score produced
for a requested column is NaN, which is not a rational percentage at all, so
not every produced percentage lies within [0,100]. -/
theorem completeness_empty_dataset_score_not_in_range :
    calculate_completeness ⟨⟨["score"], []⟩, ⟨none, none, none⟩⟩ ["score"] =
      .ok ([("score", PyFloat.nan)],
        ⟨⟨["score"], []⟩, ⟨some [("score", PyFloat.nan)], none, none⟩⟩) ∧
    PyFloat.nan ≠ PyFloat.val 0 ∧ PyFloat.nan ≠ PyFloat.val 100 := by
  refine ⟨rfl, ?_, ?_⟩ <;> (intro h; cases h)

/-- C10 counterexample: on the empty dataset (a column all of whose values
are vacuously null) consistency raises ZeroDivisionError instead of yielding
unique_values = 0, unique_ratio = 0 and an empty most_common. -/
theorem consistency_empty_dataset_raises :
    calculate_consistency ⟨⟨["a"], []⟩, ⟨none, none, none⟩⟩ ["a"] =
      .error PyExn.zeroDivisionError := rfl

/-- C2 counterexample: the first generate_report call fills self.metrics; a
second call on a changed dataset finds the dict non-empty, skips all three
computations and packages the stale cached metrics (completeness 100 for
status), although recomputing completeness on the current dataset yields 50 —
so generate_report does not recompute on every call and the second call does
not reflect the dataset change. -/
theorem generate_report_caches_stale_metrics :
    generate_report 0 ⟨dfStatusOne, ⟨none, none, none⟩⟩ =
      .ok (⟨1, metricsAfterFirstReport⟩, ⟨dfStatusOne, metricsAfterFirstReport⟩) ∧
    generate_report 0 ⟨dfStatusTwo, metricsAfterFirstReport⟩ =
      .ok (⟨2, metricsAfterFirstReport⟩, ⟨dfStatusTwo, metricsAfterFirstReport⟩) ∧
    calculate_completeness ⟨dfStatusTwo, metricsAfterFirstReport⟩ [] =
      .ok ([("status", .val 50)],
        ⟨dfStatusTwo, ⟨some [("status", .val 50)], none,
          some [("status", ⟨1, 100, [(.str "Open", 1)]⟩)]⟩⟩) ∧
    PyFloat.val 100 ≠ PyFloat.val 50 := by
  refine ⟨?_, ?_, ?_, ?_⟩
  · simp [generate_report, metricsIsEmpty, calculate_completeness,
      calculate_timeliness, calculate_consistency, exceptMapM, Except.map,
      completenessOfCol, consistencyOfCol, dfStatusOne, series, cellOf,
      nonNullValues, value_counts, countsFirstSeen, dedupFirst, sortCountsDesc,
      insertDesc, objectCols, metricsAfterFirstReport, Value.isNull,
      Value.isStr, List.filter, List.lookup, List.count, List.countP,
      List.countP.go]
  · simp [generate_report, metricsIsEmpty, metricsAfterFirstReport,
      dfStatusTwo]
  · simp [calculate_completeness, exceptMapM, Except.map, completenessOfCol,
      dfStatusTwo, series, cellOf, nonNullValues, metricsAfterFirstReport,
      Value.isNull, List.filter, List.lookup]
    norm_num
  · intro h
    rw [PyFloat.val.injEq] at h
    norm_num at h

/-- C2 (amended): generate_report recomputes the three metric families only
when no metrics have been computed this session; when the metrics dict is
non-empty it skips the computations entirely and packages the cached metrics
with the current record count, leaving the state untouched. -/
theorem generate_report_skips_when_cached (now : ℚ) (st : EngineState)
    (h : metricsIsEmpty st.metrics = false) :
    generate_report now st = .ok (⟨st.df.rows.length, st.metrics⟩, st) := by
  rw [generate_report, h]
  simp

/-- Witness for generate_report_skips_when_cached at a concrete cached
state. -/
theorem generate_report_skips_when_cached_witness :
    generate_report 0 ⟨dfStatusTwo, metricsAfterFirstReport⟩ =
      .ok (⟨2, metricsAfterFirstReport⟩, ⟨dfStatusTwo, metricsAfterFirstReport⟩) :=
  generate_report_skips_when_cached 0 ⟨dfStatusTwo, metricsAfterFirstReport⟩ rfl

/-- If some element of the list fails, the error-propagating map fails. -/
theorem exceptMapM_error_of_mem (f : α → Except PyExn β) :
    ∀ (l : List α) (x : α) (e : PyExn), x ∈ l → f x = .error e →
      ∃ e', exceptMapM f l = .error e' := by
  intro l
  induction l with
  | nil => intro x e hx; simp at hx
  | cons a as ih =>
    intro x e hx hfx
    rcases List.mem_cons.mp hx with rfl | hx'
    · exact ⟨e, by rw [exceptMapM_cons, hfx]⟩
    · cases hfa : f a with
      | error e0 => exact ⟨e0, by rw [exceptMapM_cons, hfa]⟩
      | ok b =>
        obtain ⟨e', he'⟩ := ih x e hx' hfx
        exact ⟨e', by rw [exceptMapM_cons, hfa, he']⟩

/-- C3 counterexample: calculate_timeliness writes the parsed date column back
into the DataFrame: after the call on a one-record dataset whose created_date
holds the string "2024-01-01", the stored record holds a timestamp instead of
the original string — the dataset was mutated. -/
theorem timeliness_mutates_dataset :
    calculate_timeliness 1704067200
      ⟨⟨["created_date"], [[("created_date", .str "2024-01-01")]]⟩,
       ⟨none, none, none⟩⟩ "created_date" =
      .ok (some ⟨.days 0, .days 0, .days 0⟩,
        ⟨⟨["created_date"], [[("created_date", .timestamp 1704067200)]]⟩,
         ⟨none, some ⟨.days 0, .days 0, .days 0⟩, none⟩⟩) ∧
    ([[(("created_date" : String), Value.timestamp 1704067200)]] : List Record) ≠
      [[(("created_date" : String), Value.str "2024-01-01")]] := by
  have hpd : parseDate "2024-01-01" = some 1704067200 := by decide
  constructor
  · simp [calculate_timeliness, series, cellOf, exceptMapM, toDatetime, hpd,
      setColumn, setCell, parsedValue, daysOf, listMean, listMax, listMin,
      List.lookup]
  · simp

/-- C3 (amended): calculate_completeness and calculate_consistency leave the
DataFrame unchanged; calculate_timeliness leaves it unchanged when the date
column is missing, but when the column is present and parses it replaces that
column with the parsed timestamps — a mutation of the dataset. -/
theorem dataset_mutation_profile (st : EngineState) (cols : List String)
    (now : ℚ) (dc : String) :
    (∀ r st', calculate_completeness st cols = .ok (r, st') → st'.df = st.df) ∧
    (∀ r st', calculate_consistency st cols = .ok (r, st') → st'.df = st.df) ∧
    (∀ parsed, dc ∈ st.df.cols →
      exceptMapM toDatetime (series st.df dc) = .ok parsed →
      ∃ m st', calculate_timeliness now st dc = .ok (m, st') ∧
        st'.df = setColumn st.df dc (parsed.map parsedValue)) ∧
    (dc ∉ st.df.cols → calculate_timeliness now st dc = .ok (none, st)) := by
  refine ⟨?_, ?_, ?_, ?_⟩
  · intro r st' h
    rw [calculate_completeness] at h
    cases hm : exceptMapM (fun c => (completenessOfCol st.df c).map (fun p => (c, p)))
        (if cols.isEmpty then st.df.cols else cols) with
    | error e => rw [hm] at h; cases h
    | ok scores =>
      rw [hm] at h
      simp only [Except.ok.injEq, Prod.mk.injEq] at h
      rw [← h.2]
  · intro r st' h
    rw [calculate_consistency] at h
    cases hm : exceptMapM (fun c => (consistencyOfCol st.df c).map (fun m => (c, m)))
        (if cols.isEmpty then objectCols st.df else cols) with
    | error e => rw [hm] at h; cases h
    | ok ms =>
      rw [hm] at h
      simp only [Except.ok.injEq, Prod.mk.injEq] at h
      rw [← h.2]
  · intro parsed hcol hparse
    exact ⟨some (timelinessOf now parsed), _,
      calculate_timeliness_eq now st dc parsed hcol hparse, rfl⟩
  · intro hcol
    rw [calculate_timeliness, if_neg hcol]

/-- Witness for dataset_mutation_profile: on a one-record dataset with a null
date the timeliness call returns the column overwritten with parsed values. -/
theorem dataset_mutation_profile_witness :
    ∃ m st', calculate_timeliness 0
      ⟨⟨["created_date"], [[("created_date", Value.null)]]⟩, ⟨none, none, none⟩⟩
      "created_date" = .ok (m, st') ∧
      st'.df = setColumn ⟨["created_date"], [[("created_date", Value.null)]]⟩
        "created_date" (([none] : List (Option ℚ)).map parsedValue) :=
  (dataset_mutation_profile
    ⟨⟨["created_date"], [[("created_date", Value.null)]]⟩, ⟨none, none, none⟩⟩
    [] 0 "created_date").2.2.1 [none] (by decide) rfl

/-- C4 counterexample: an unparsable date value makes calculate_timeliness
raise a date-parse exception (pd.to_datetime defaults to errors='raise'); the
value is not excluded from the aggregates and nothing is counted. -/
theorem timeliness_unparsable_date_raises :
    calculate_timeliness 0
      ⟨⟨["created_date"], [[("created_date", .str "notadate")]]⟩,
       ⟨none, none, none⟩⟩ "created_date" =
      .error (.dateParseError "notadate") := rfl

/-- C4 (amended): a missing date column yields None (unavailable); a column
whose values are all null yields NaN-valued metrics (zero parsable dates do
not crash, but the result is NaN, not a zero-count); and any unparsable date
string anywhere in the column aborts the whole metric with an exception
rather than being excluded and counted. -/
theorem timeliness_error_handling (now : ℚ) (st : EngineState) (dc : String) :
    (dc ∉ st.df.cols → calculate_timeliness now st dc = .ok (none, st)) ∧
    (dc ∈ st.df.cols → (∀ v ∈ series st.df dc, v = Value.null) →
      ∃ st', calculate_timeliness now st dc =
        .ok (some ⟨.nanDays, .nanDays, .nanDays⟩, st')) ∧
    (dc ∈ st.df.cols → ∀ s, Value.str s ∈ series st.df dc → parseDate s = none →
      ∃ e, calculate_timeliness now st dc = .error e) := by
  refine ⟨?_, ?_, ?_⟩
  · intro hcol
    rw [calculate_timeliness, if_neg hcol]
  · intro hcol hall
    have hparse : exceptMapM toDatetime (series st.df dc) =
        .ok ((series st.df dc).map (fun _ => none)) := by
      refine exceptMapM_ok_of_forall toDatetime (fun _ => none) _ ?_
      intro x hx
      rw [hall x hx]
      rfl
    have heq := calculate_timeliness_eq now st dc _ hcol hparse
    have hnil : (((series st.df dc).map (fun _ => (none : Option ℚ))).filterMap id) = [] := by
      simp
    simp only [timelinessOf, agesOf, hnil, List.map_nil, listMean, listMax,
      listMin, daysOf, if_pos] at heq
    exact ⟨_, heq⟩
  · intro hcol s hs hps
    have herr : toDatetime (Value.str s) = .error (.dateParseError s) := by
      rw [toDatetime, hps]
    obtain ⟨e', he'⟩ := exceptMapM_error_of_mem toDatetime (series st.df dc)
      (Value.str s) (.dateParseError s) hs herr
    exact ⟨e', by rw [calculate_timeliness, if_pos hcol, he']⟩

/-- Witness for timeliness_error_handling: all-null date column yields the
NaN-valued metrics. -/
theorem timeliness_error_handling_witness :
    ∃ st', calculate_timeliness 0
      ⟨⟨["created_date"], [[("created_date", Value.null)], []]⟩, ⟨none, none, none⟩⟩
      "created_date" = .ok (some ⟨.nanDays, .nanDays, .nanDays⟩, st') :=
  (timeliness_error_handling 0
    ⟨⟨["created_date"], [[("created_date", Value.null)], []]⟩, ⟨none, none, none⟩⟩
    "created_date").2.1 (by decide)
    (by intro v hv; simp [series, cellOf] at hv; subst hv; rfl)

/-- C6: average_age_days is obtained by averaging the exact ages first and
truncating the mean to whole days afterwards: it equals the floor of
(sum of ages) / (count * 86400).  The second conjunct shows on a concrete
two-record dataset (ages 0.9 and 1.9 days) that the result is 1 while
truncating each age before averaging would give 0 — so the truncation indeed
happens after the averaging, not before. -/
theorem timeliness_truncates_after_averaging :
    (∀ (now : ℚ) (st : EngineState) (dc : String) (parsed : List (Option ℚ)),
      dc ∈ st.df.cols →
      exceptMapM toDatetime (series st.df dc) = .ok parsed →
      parsed.filterMap id ≠ [] →
      ∃ m st', calculate_timeliness now st dc = .ok (some m, st') ∧
        m.average_age_days =
          .days ⌊(agesOf now parsed).sum / (((parsed.filterMap id).length : ℚ) * 86400)⌋) ∧
    (∃ m st', calculate_timeliness 1704922560
        ⟨⟨["created_date"], [[("created_date", .str "2024-01-10")],
          [("created_date", .str "2024-01-09")]]⟩, ⟨none, none, none⟩⟩
        "created_date" = .ok (some m, st') ∧
      m.average_age_days = .days 1 ∧
      ⌊((⌊(77760 : ℚ) / 86400⌋ + ⌊(164160 : ℚ) / 86400⌋ : ℤ) : ℚ) / 2⌋ = 0 ∧
      (1 : ℤ) ≠ 0) := by
  constructor
  · intro now st dc parsed hcol hparse hne
    refine ⟨timelinessOf now parsed, _,
      calculate_timeliness_eq now st dc parsed hcol hparse, ?_⟩
    have hagene : agesOf now parsed ≠ [] := by
      simp only [agesOf, ne_eq, List.map_eq_nil_iff]
      exact hne
    have hlen : ((agesOf now parsed).length : ℚ) = ((parsed.filterMap id).length : ℚ) := by
      simp [agesOf]
    rw [timelinessOf]
    simp only [listMean, if_neg hagene, daysOf]
    rw [hlen, div_div]
  · have hd1 : parseDate "2024-01-10" = some 1704844800 := by decide
    have hd2 : parseDate "2024-01-09" = some 1704758400 := by decide
    refine ⟨⟨.days 1, .days 1, .days 0⟩,
      ⟨⟨["created_date"], [[("created_date", .timestamp 1704844800)],
        [("created_date", .timestamp 1704758400)]]⟩,
       ⟨none, some ⟨.days 1, .days 1, .days 0⟩, none⟩⟩, ?_, rfl, ?_, by decide⟩
    · simp [calculate_timeliness, series, cellOf, exceptMapM, toDatetime,
        hd1, hd2, setColumn, setCell, parsedValue, daysOf, listMean, listMax,
        listMin, List.lookup]
      norm_num [Int.floor_eq_iff]
    · norm_num [Int.floor_eq_iff]

/-- Witness for the universal part of timeliness_truncates_after_averaging,
at a one-record dataset holding an already-parsed timestamp. -/
theorem timeliness_truncates_after_averaging_witness :
    ∃ m st', calculate_timeliness 86400
      ⟨⟨["created_date"], [[("created_date", .timestamp 0)]]⟩, ⟨none, none, none⟩⟩
      "created_date" = .ok (some m, st') ∧
      m.average_age_days =
        .days ⌊(agesOf 86400 [some 0]).sum / ((([some (0 : ℚ)].filterMap id).length : ℚ) * 86400)⌋ :=
  timeliness_truncates_after_averaging.1 86400
    ⟨⟨["created_date"], [[("created_date", .timestamp 0)]]⟩, ⟨none, none, none⟩⟩
    "created_date" [some 0] (by decide) rfl (by simp)

/-- C7: on any dataset whose date column parses with at least one non-null
timestamp, oldest_record_days (floor of the maximum age) is at least
newest_record_days (floor of the minimum age), and a record whose timestamp
lies in the future of now forces newest_record_days below zero — the negative
value is preserved, not clamped. -/
theorem timeliness_oldest_ge_newest (now : ℚ) (st : EngineState) (dc : String)
    (parsed : List (Option ℚ))
    (hcol : dc ∈ st.df.cols)
    (hparse : exceptMapM toDatetime (series st.df dc) = .ok parsed)
    (hne : parsed.filterMap id ≠ []) :
    ∃ m st' o nw, calculate_timeliness now st dc = .ok (some m, st') ∧
      m.oldest_record_days = .days o ∧
      m.newest_record_days = .days nw ∧
      nw ≤ o ∧
      (∀ t ∈ parsed.filterMap id, now < t → nw < 0) := by
  obtain ⟨t0, ts, hts⟩ : ∃ t0 ts, parsed.filterMap id = t0 :: ts := by
    cases h : parsed.filterMap id with
    | nil => exact absurd h hne
    | cons a as => exact ⟨a, as, rfl⟩
  have hages : agesOf now parsed = (now - t0) :: ts.map (fun t => now - t) := by
    rw [agesOf, hts, List.map_cons]
  obtain ⟨M, hM, hMax⟩ := listMax_spec (now - t0) (ts.map (fun t => now - t))
  obtain ⟨mn, hmn, hMin⟩ := listMin_spec (now - t0) (ts.map (fun t => now - t))
  refine ⟨timelinessOf now parsed, _, ⌊M / 86400⌋, ⌊mn / 86400⌋,
    calculate_timeliness_eq now st dc parsed hcol hparse, ?_, ?_, ?_, ?_⟩
  · rw [timelinessOf]
    simp only [hages, hM, daysOf]
  · rw [timelinessOf]
    simp only [hages, hmn, daysOf]
  · have h1 : mn ≤ now - t0 := hMin (now - t0) (List.mem_cons_self _ _)
    have h2 : now - t0 ≤ M := hMax (now - t0) (List.mem_cons_self _ _)
    exact Int.floor_le_floor ((div_le_div_iff_of_pos_right (by norm_num)).mpr
      (le_trans h1 h2))
  · intro t ht hlt
    have hmem : now - t ∈ (now - t0) :: ts.map (fun t => now - t) := by
      rw [← hages, agesOf]
      exact List.mem_map_of_mem (fun t => now - t) (by rw [hts] at ht ⊢; exact ht)
    have h1 : mn ≤ now - t := hMin (now - t) hmem
    have h2 : mn < 0 := lt_of_le_of_lt h1 (by linarith)
    have h3 : mn / 86400 < 0 := div_neg_of_neg_of_pos h2 (by norm_num)
    have h4 : (⌊mn / 86400⌋ : ℚ) < 0 := lt_of_le_of_lt (Int.floor_le _) h3
    exact_mod_cast h4

/-- Witness for timeliness_oldest_ge_newest at a dataset holding one
future-dated timestamp. -/
theorem timeliness_oldest_ge_newest_witness :
    ∃ m st' o nw, calculate_timeliness 0
      ⟨⟨["created_date"], [[("created_date", .timestamp 86400)]]⟩, ⟨none, none, none⟩⟩
      "created_date" = .ok (some m, st') ∧
      m.oldest_record_days = .days o ∧
      m.newest_record_days = .days nw ∧
      nw ≤ o ∧
      (∀ t ∈ ([some 86400] : List (Option ℚ)).filterMap id, 0 < t → nw < 0) :=
  timeliness_oldest_ge_newest 0
    ⟨⟨["created_date"], [[("created_date", .timestamp 86400)]]⟩, ⟨none, none, none⟩⟩
    "created_date" [some 86400] (by decide) rfl (by simp)

/-! ## Lemmas about value_counts -/

theorem value_counts_length (vals : List Value) :
    (value_counts vals).length = (nonNullValues vals).toFinset.card := by
  rw [value_counts, length_sortCountsDesc, countsFirstSeen, List.length_map,
    dedupFirst_length_eq_card]

theorem countsFirstSeen_pairwise (vals : List Value) :
    (countsFirstSeen vals).Pairwise
      (fun a b => firstIdx vals a.1 < firstIdx vals b.1) := by
  rw [countsFirstSeen]
  refine List.pairwise_map.mpr ?_
  have h1 := dedupFirst_pairwise_firstIdx (nonNullValues vals)
  refine List.Pairwise.imp_of_mem ?_ h1
  intro a b ha hb hlt
  exact firstIdx_filter_lt _ vals (mem_dedupFirst.mp ha) (mem_dedupFirst.mp hb) hlt

theorem value_counts_pairwise (vals : List Value) :
    (value_counts vals).Pairwise (fun a b => b.2 ≤ a.2 ∧
      (a.2 = b.2 → firstIdx vals a.1 < firstIdx vals b.1)) :=
  sortCountsDesc_pairwise (countsFirstSeen_pairwise vals)

theorem mem_value_counts {vals : List Value} {p : Value × ℕ}
    (hp : p ∈ value_counts vals) :
    p.1 ∈ nonNullValues vals ∧ p.2 = (nonNullValues vals).count p.1 := by
  have h1 : p ∈ countsFirstSeen vals := mem_sortCountsDesc hp
  rw [countsFirstSeen] at h1
  obtain ⟨k, hk, hkp⟩ := List.mem_map.mp h1
  rw [← hkp]
  exact ⟨mem_dedupFirst.mp hk, rfl⟩

/-- 0 ≤ (a / b) * 100 ≤ 100 whenever 0 ≤ a ≤ b and b is a positive count. -/
theorem ratio_bounds (a b : ℕ) (hb : b ≠ 0) (hab : a ≤ b) :
    0 ≤ ((a : ℚ) / (b : ℚ)) * 100 ∧ ((a : ℚ) / (b : ℚ)) * 100 ≤ 100 := by
  have hb' : (0 : ℚ) < (b : ℚ) := by
    exact_mod_cast Nat.pos_of_ne_zero hb
  constructor
  · positivity
  · have h1 : (a : ℚ) / (b : ℚ) ≤ 1 := by
      rw [div_le_one hb']
      exact_mod_cast hab
    calc ((a : ℚ) / (b : ℚ)) * 100 ≤ 1 * 100 :=
          mul_le_mul_of_nonneg_right h1 (by norm_num)
      _ = 100 := one_mul 100

/-- C5: most_common of every requested categorical column (on a non-empty
frame) has at most 3 entries; its entries carry the true occurrence count of
their value in the column; and it is sorted by descending count, with any two
entries of equal count ordered by the position of the first occurrence of
their values in the column. -/
theorem consistency_most_common_ordered (st : EngineState) (col : String)
    (hcol : col ∈ st.df.cols) (hne : st.df.rows ≠ []) :
    ∃ m st', calculate_consistency st [col] = .ok ([(col, m)], st') ∧
      m.most_common.length ≤ 3 ∧
      m.most_common.Pairwise (fun a b => b.2 ≤ a.2 ∧
        (a.2 = b.2 → firstIdx (series st.df col) a.1 < firstIdx (series st.df col) b.1)) ∧
      (∀ p ∈ m.most_common, p.2 = (series st.df col).count p.1) := by
  refine ⟨consistencyMetricOf st.df col, _,
    calculate_consistency_single st col hcol hne, ?_, ?_, ?_⟩
  · exact List.length_take_le 3 _
  · exact (value_counts_pairwise (series st.df col)).sublist
      (List.take_sublist 3 _)
  · intro p hp
    have hp' : p ∈ value_counts (series st.df col) :=
      (List.take_sublist 3 _).subset hp
    obtain ⟨hmem, hcnt⟩ := mem_value_counts hp'
    have hmem' : p.1 ∈ (series st.df col).filter (fun v => !v.isNull) := hmem
    have hnn : (!p.1.isNull) = true := (List.mem_filter.mp hmem').2
    rw [hcnt, nonNullValues]
    exact List.count_filter hnn

/-- Witness for consistency_most_common_ordered on a three-record column with
a tie between two values. -/
theorem consistency_most_common_ordered_witness :
    ∃ m st', calculate_consistency
      ⟨⟨["status"], [[("status", .str "A")], [("status", .str "B")],
        [("status", .str "A")]]⟩, ⟨none, none, none⟩⟩ ["status"] =
      .ok ([("status", m)], st') ∧
      m.most_common.length ≤ 3 ∧
      m.most_common.Pairwise (fun a b => b.2 ≤ a.2 ∧
        (a.2 = b.2 →
          firstIdx (series ⟨["status"], [[("status", .str "A")], [("status", .str "B")],
            [("status", .str "A")]]⟩ "status") a.1 <
          firstIdx (series ⟨["status"], [[("status", .str "A")], [("status", .str "B")],
            [("status", .str "A")]]⟩ "status") b.1)) ∧
      (∀ p ∈ m.most_common,
        p.2 = (series ⟨["status"], [[("status", .str "A")], [("status", .str "B")],
          [("status", .str "A")]]⟩ "status").count p.1) :=
  consistency_most_common_ordered
    ⟨⟨["status"], [[("status", .str "A")], [("status", .str "B")],
      [("status", .str "A")]]⟩, ⟨none, none, none⟩⟩ "status" (by decide) (by decide)

/-- C8: unique_ratio divides the distinct non-null value count by the total
record count (not by the non-null count), times 100. -/
theorem consistency_unique_ratio_total_denominator (st : EngineState) (col : String)
    (hcol : col ∈ st.df.cols) (hne : st.df.rows ≠ []) :
    ∃ m st', calculate_consistency st [col] = .ok ([(col, m)], st') ∧
      m.unique_ratio = ((nonNullValues (series st.df col)).toFinset.card : ℚ) /
        (st.df.rows.length : ℚ) * 100 := by
  refine ⟨consistencyMetricOf st.df col, _,
    calculate_consistency_single st col hcol hne, ?_⟩
  rw [consistencyMetricOf, value_counts_length]

/-- Witness for consistency_unique_ratio_total_denominator at the spec's edge
case: four records, two null, the two non-null values distinct, giving a
ratio of 2/4 x 100 = 50 — the denominator is the total count, not the
non-null count. -/
theorem consistency_unique_ratio_total_denominator_witness :
    ∃ m st', calculate_consistency
      ⟨⟨["c"], [[("c", .str "x")], [], [("c", .str "y")], []]⟩,
       ⟨none, none, none⟩⟩ ["c"] = .ok ([("c", m)], st') ∧
      m.unique_ratio = 50 := by
  obtain ⟨m, st', hcalc, hratio⟩ := consistency_unique_ratio_total_denominator
    ⟨⟨["c"], [[("c", .str "x")], [], [("c", .str "y")], []]⟩,
     ⟨none, none, none⟩⟩ "c" (by decide) (by decide)
  refine ⟨m, st', hcalc, ?_⟩
  rw [hratio]
  have hcard : ((nonNullValues (series
      (⟨["c"], [[("c", .str "x")], [], [("c", .str "y")], []]⟩ : DataFrame)
      "c")).toFinset.card) = 2 := by decide
  rw [hcard]
  norm_num

/-- C9 (amended): on every NON-EMPTY dataset, every completeness score the
engine produces is a rational percentage within [0,100], equal to 100 when
every value of the column is non-null and to 0 when every value is null, and
every consistency unique_ratio is within [0,100].  (On the empty dataset the
completeness scores are NaN instead — see the counterexample.) -/
theorem percentages_within_range (st : EngineState) (hne : st.df.rows ≠ []) :
    (∀ cols scores st', calculate_completeness st cols = .ok (scores, st') →
      ∀ c f, (c, f) ∈ scores → ∃ p, f = .val p ∧ 0 ≤ p ∧ p ≤ 100 ∧
        ((∀ v ∈ series st.df c, v.isNull = false) → p = 100) ∧
        ((∀ v ∈ series st.df c, v.isNull = true) → p = 0)) ∧
    (∀ cols ms st', calculate_consistency st cols = .ok (ms, st') →
      ∀ c m, (c, m) ∈ ms → 0 ≤ m.unique_ratio ∧ m.unique_ratio ≤ 100) := by
  have hlen : st.df.rows.length ≠ 0 := by
    intro h; exact hne (List.length_eq_zero.mp h)
  have hserlen : ∀ c, (series st.df c).length = st.df.rows.length := by
    intro c; rw [series, List.length_map]
  constructor
  · intro cols scores st' h c f hmem
    rw [calculate_completeness] at h
    cases hm : exceptMapM (fun c => (completenessOfCol st.df c).map (fun p => (c, p)))
        (if cols.isEmpty then st.df.cols else cols) with
    | error e => rw [hm] at h; cases h
    | ok scores0 =>
      rw [hm] at h
      simp only [Except.ok.injEq, Prod.mk.injEq] at h
      obtain ⟨x, _, hx⟩ := exceptMapM_ok_mem _ _ _ hm (c, f) (h.1 ▸ hmem)
      rw [completenessOfCol] at hx
      by_cases hxc : x ∈ st.df.cols
      · rw [if_pos hxc, if_neg hlen] at hx
        simp only [Except.map, Except.ok.injEq, Prod.mk.injEq] at hx
        obtain ⟨rfl, hf⟩ := hx
        have hcount : (nonNullValues (series st.df x)).length ≤ st.df.rows.length := by
          rw [← hserlen x]
          exact List.length_filter_le _ _
        obtain ⟨h0, h100⟩ := ratio_bounds _ _ hlen hcount
        refine ⟨_, hf.symm, h0, h100, ?_, ?_⟩
        · intro hall
          have hfull : nonNullValues (series st.df x) = series st.df x :=
            List.filter_eq_self.mpr (fun v hv => by rw [hall v hv]; rfl)
          rw [hfull, hserlen x, div_self (by exact_mod_cast hlen), one_mul]
        · intro hall
          have hnil : nonNullValues (series st.df x) = [] := by
            rw [nonNullValues, List.filter_eq_nil_iff]
            intro v hv
            rw [hall v hv]
            simp
          rw [hnil]
          norm_num
      · rw [if_neg hxc] at hx
        cases hx
  · intro cols ms st' h c m hmem
    rw [calculate_consistency] at h
    cases hm : exceptMapM (fun c => (consistencyOfCol st.df c).map (fun m => (c, m)))
        (if cols.isEmpty then objectCols st.df else cols) with
    | error e => rw [hm] at h; cases h
    | ok ms0 =>
      rw [hm] at h
      simp only [Except.ok.injEq, Prod.mk.injEq] at h
      obtain ⟨x, _, hx⟩ := exceptMapM_ok_mem _ _ _ hm (c, m) (h.1 ▸ hmem)
      rw [consistencyOfCol] at hx
      by_cases hxc : x ∈ st.df.cols
      · rw [if_pos hxc, if_neg hlen] at hx
        simp only [Except.map, Except.ok.injEq, Prod.mk.injEq] at hx
        obtain ⟨rfl, hm'⟩ := hx
        have hle : (value_counts (series st.df x)).length ≤ st.df.rows.length := by
          rw [value_counts, length_sortCountsDesc, countsFirstSeen,
            List.length_map, ← hserlen x]
          exact Nat.le_trans (dedupFirst_length_le _) (List.length_filter_le _ _)
        obtain ⟨h0, h100⟩ := ratio_bounds _ _ hlen hle
        rw [← hm']
        exact ⟨h0, h100⟩
      · rw [if_neg hxc] at hx
        cases hx

/-- Witness for percentages_within_range: the 100-percent column of a
one-record dataset. -/
theorem percentages_within_range_witness :
    ∃ p, PyFloat.val (completenessScoreOf ⟨["x"], [[("x", Value.str "v")]]⟩ "x") =
        PyFloat.val p ∧ 0 ≤ p ∧ p ≤ 100 ∧
      ((∀ v ∈ series (⟨⟨["x"], [[("x", Value.str "v")]]⟩,
          ⟨none, none, none⟩⟩ : EngineState).df "x", v.isNull = false) → p = 100) ∧
      ((∀ v ∈ series (⟨⟨["x"], [[("x", Value.str "v")]]⟩,
          ⟨none, none, none⟩⟩ : EngineState).df "x", v.isNull = true) → p = 0) :=
  (percentages_within_range
      ⟨⟨["x"], [[("x", Value.str "v")]]⟩, ⟨none, none, none⟩⟩ (by decide)).1
    ["x"] _ _
    (calculate_completeness_single
      ⟨⟨["x"], [[("x", Value.str "v")]]⟩, ⟨none, none, none⟩⟩ "x"
      (by decide) (by decide))
    "x" _ (by simp)

/-- C10 (amended): on every NON-EMPTY dataset, consistency counts only the
distinct non-null values of a requested column (unique_values is the
cardinality of the non-null value set, and no null appears in most_common);
a column whose values are all null yields unique_values = 0, unique_ratio = 0
and an empty most_common.  (On the empty dataset consistency raises
ZeroDivisionError instead — see the counterexample.) -/
theorem consistency_counts_only_nonnull (st : EngineState) (col : String)
    (hcol : col ∈ st.df.cols) (hne : st.df.rows ≠ []) :
    ∃ m st', calculate_consistency st [col] = .ok ([(col, m)], st') ∧
      m.unique_values = (nonNullValues (series st.df col)).toFinset.card ∧
      (∀ p ∈ m.most_common, p.1.isNull = false) ∧
      ((∀ v ∈ series st.df col, v.isNull = true) →
        m = ⟨0, 0, []⟩) := by
  refine ⟨consistencyMetricOf st.df col, _,
    calculate_consistency_single st col hcol hne, ?_, ?_, ?_⟩
  · rw [consistencyMetricOf, value_counts_length]
  · intro p hp
    have hp' : p ∈ value_counts (series st.df col) :=
      (List.take_sublist 3 _).subset hp
    have hmem' : p.1 ∈ (series st.df col).filter (fun v => !v.isNull) :=
      (mem_value_counts hp').1
    have := (List.mem_filter.mp hmem').2
    simpa using this
  · intro hall
    have hnil : nonNullValues (series st.df col) = [] := by
      rw [nonNullValues, List.filter_eq_nil_iff]
      intro v hv
      rw [hall v hv]
      simp
    have hvc : value_counts (series st.df col) = [] := by
      rw [value_counts, countsFirstSeen, hnil, dedupFirst_nil, List.map_nil,
        sortCountsDesc]
    rw [consistencyMetricOf, hvc]
    simp

/-- Witness for consistency_counts_only_nonnull on a two-record all-null
column. -/
theorem consistency_counts_only_nonnull_witness :
    ∃ m st', calculate_consistency
      ⟨⟨["c"], [[("c", Value.null)], []]⟩, ⟨none, none, none⟩⟩ ["c"] =
      .ok ([("c", m)], st') ∧
      m.unique_values = (nonNullValues (series
        (⟨["c"], [[("c", Value.null)], []]⟩ : DataFrame) "c")).toFinset.card ∧
      (∀ p ∈ m.most_common, p.1.isNull = false) ∧
      ((∀ v ∈ series (⟨["c"], [[("c", Value.null)], []]⟩ : DataFrame) "c",
          v.isNull = true) → m = ⟨0, 0, []⟩) :=
  consistency_counts_only_nonnull
    ⟨⟨["c"], [[("c", Value.null)], []]⟩, ⟨none, none, none⟩⟩ "c"
    (by decide) (by decide)
